import Mathlib

/-!
Shallow embedding of libvtd (src/libvtd/node.py and
src/libvtd/trusted_system.py) in Lean 4, with theorems settling the
frozen claims about the specification.

Modelling conventions:
* Python `datetime.datetime` values are modelled by the `DateTime`
  structure below.  Python compares datetimes lexicographically by
  (year, month, day, hour, minute, second); `DateTime.ltb` mirrors that.
* Python `None` for an optional date is `Option.none`.
* The `while` loops of `PreviousMonthDay` are written with an explicit
  fuel argument; at every input that the program reaches, the loops
  terminate after at most a few iterations, far below the fuel bound.
-/

/-- A proleptic-Gregorian calendar timestamp, mirroring Python
`datetime.datetime` (microseconds are never used by libvtd). -/
structure DateTime where
  year : Int
  month : Nat
  day : Nat
  hour : Nat
  minute : Nat
  second : Nat
deriving DecidableEq, Repr

/-- An `HH:MM` time of day, as produced by `strptime(s, '%H:%M')`. -/
structure TimeHM where
  hour : Nat
  minute : Nat
deriving DecidableEq, Repr

/-- Python `a < b` on datetimes: lexicographic field comparison. -/
def DateTime.ltb (a b : DateTime) : Bool :=
  decide (a.year < b.year) ||
    (decide (a.year = b.year) &&
      (decide (a.month < b.month) ||
        (decide (a.month = b.month) &&
          (decide (a.day < b.day) ||
            (decide (a.day = b.day) &&
              (decide (a.hour < b.hour) ||
                (decide (a.hour = b.hour) &&
                  (decide (a.minute < b.minute) ||
                    (decide (a.minute = b.minute) &&
                      decide (a.second < b.second))))))))))

/-- Python `a <= b` on datetimes. -/
def DateTime.leb (a b : DateTime) : Bool :=
  !(DateTime.ltb b a)

/-- Python `min(a, b)`: returns `b` only when `b < a`. -/
def pymin (a b : DateTime) : DateTime :=
  if DateTime.ltb b a then b else a

/-- Python `max(a, b)`: returns `b` only when `a < b`. -/
def pymax (a b : DateTime) : DateTime :=
  if DateTime.ltb a b then b else a

/-- Gregorian leap-year test (as used by Python's calendar). -/
def isLeap (y : Int) : Bool :=
  y % 4 == 0 && (y % 100 != 0 || y % 400 == 0)

/-- Number of days in a month of a given year. -/
def daysInMonth (y : Int) (m : Nat) : Nat :=
  if m = 2 then (if isLeap y then 29 else 28)
  else if m = 4 ∨ m = 6 ∨ m = 9 ∨ m = 11 then 30
  else 31

/-- The calendar day after `t` (Python `t + timedelta(days=1)`),
keeping the time of day. -/
def DateTime.nextDay (t : DateTime) : DateTime :=
  if t.day < daysInMonth t.year t.month then { t with day := t.day + 1 }
  else if t.month < 12 then { t with month := t.month + 1, day := 1 }
  else { t with year := t.year + 1, month := 1, day := 1 }

/-- The calendar day before `t` (Python `t - timedelta(days=1)`),
keeping the time of day. -/
def DateTime.prevDay (t : DateTime) : DateTime :=
  if 1 < t.day then { t with day := t.day - 1 }
  else if 1 < t.month then
    { t with month := t.month - 1, day := daysInMonth t.year (t.month - 1) }
  else { t with year := t.year - 1, month := 12, day := 31 }

/-- Python `t + timedelta(days=n)` for a possibly negative `n`. -/
def DateTime.addDays (t : DateTime) (n : Int) : DateTime :=
  if 0 ≤ n then Nat.iterate DateTime.nextDay n.toNat t
  else Nat.iterate DateTime.prevDay (-n).toNat t

/-- Python `t + dateutil.relativedelta.relativedelta(months=n)`:
advance the month index and clamp the day to the length of the
resulting month. -/
def DateTime.addMonthsClamp (t : DateTime) (n : Int) : DateTime :=
  let idx : Int := t.year * 12 + (t.month : Int) - 1 + n
  let y := idx.ediv 12
  let m := (idx.emod 12).toNat + 1
  { t with year := y, month := m, day := min t.day (daysInMonth y m) }

/-- `AdvanceByMonths(date_and_time, num, from_start)` from node.py:
calendar month addition; when `from_start` is false, the day of month is
counted from the end of the month via the offset to the first day of the
next month. -/
def AdvanceByMonths (t : DateTime) (num : Int) (fromStart : Bool) : DateTime :=
  if fromStart then t.addMonthsClamp num
  else
    -- offset = first_day_next_month - date (a positive number of days)
    let offset : Int := (daysInMonth t.year t.month : Int) - (t.day : Int) + 1
    ((t.addDays offset).addMonthsClamp num).addDays (-offset)

/-- `combine(t.date(), time)` with seconds zeroed, as `strptime('%H:%M')`
produces. -/
def DateTime.combine (t : DateTime) (tm : TimeHM) : DateTime :=
  { t with hour := tm.hour, minute := tm.minute, second := 0 }

/-- `PreviousTime(date_and_time, time_string, due)` from node.py.
The `time_string` argument is modelled post-`strptime`: `some tm` when
the string parses as `HH:MM`, `none` when it is missing or unparsable
(in which case the bare `except` yields `datetime.time()`, i.e. 00:00 —
the `due` parameter is never read by the body). -/
def PreviousTime (t : DateTime) (timeSpec : Option TimeHM) (due : Bool) : DateTime :=
  let time : TimeHM := match timeSpec with
    | some tm => tm
    | none => ⟨0, 0⟩
  let nd := t.combine time
  if DateTime.leb t nd then nd.prevDay else nd

/-- Python `t.weekday()` (Monday = 0 … Sunday = 6), via Sakamoto's
day-of-week algorithm. -/
def DateTime.weekday (t : DateTime) : Nat :=
  let y : Int := if t.month < 3 then t.year - 1 else t.year
  let tbl : List Int := [0, 3, 2, 5, 0, 3, 5, 1, 4, 6, 2, 4]
  let sak : Int := (y + y.ediv 4 - y.ediv 100 + y.ediv 400 +
    tbl.getD (t.month - 1) 0 + (t.day : Int)).emod 7
  ((sak + 6).emod 7).toNat

/-- `PreviousWeekDay(date_and_time, weekday_string, due)` from node.py.
The string is modelled post-parse: `some (wd, some tm)` for
`"<weekday> HH:MM"`, `some (wd, none)` for a bare weekday (in which case
`due` promotes the time to 23:59, else dateutil defaults it to 00:00),
and `none` for a missing or unparsable string (the `except` branch
parses `'Sun 00:00'`, so Sunday at 00:00 regardless of `due`). -/
def PreviousWeekDay (t : DateTime) (spec : Option (Nat × Option TimeHM))
    (due : Bool) : DateTime :=
  let wdt : Nat × TimeHM := match spec with
    | none => (6, ⟨0, 0⟩)
    | some (w, some tm) => (w, tm)
    | some (w, none) => (w, if due then ⟨23, 59⟩ else ⟨0, 0⟩)
  if t.weekday = wdt.1 then
    let nd := t.combine wdt.2
    if DateTime.ltb t nd then nd.addDays (-7) else nd
  else
    (t.addDays (-(((t.weekday + 7 - wdt.1) % 7 : Nat) : Int))).combine wdt.2

/-- Fuel-bounded `while new_datetime < date_and_time: advance by +1 month`
loop of `PreviousMonthDay`. -/
def pmdLoopUp : Nat → DateTime → DateTime → Bool → DateTime
  | 0, nd, _, _ => nd
  | fuel + 1, nd, t, fromStart =>
    if DateTime.ltb nd t then pmdLoopUp fuel (AdvanceByMonths nd 1 fromStart) t fromStart
    else nd

/-- Fuel-bounded `while new_datetime > date_and_time: advance by -1 month`
loop of `PreviousMonthDay`. -/
def pmdLoopDown : Nat → DateTime → DateTime → Bool → DateTime
  | 0, nd, _, _ => nd
  | fuel + 1, nd, t, fromStart =>
    if DateTime.ltb t nd then pmdLoopDown fuel (AdvanceByMonths nd (-1) fromStart) t fromStart
    else nd

/-- `PreviousMonthDay(date_and_time, monthday_string, due)` from node.py.
The string is modelled post-regex: `some (n, time?)` when
`(-?\d+)(\s+\d\d?:\d\d)?` matches, `none` when the string is missing
(then `month_day = 0`).  The `due` flag forces the time to 23:59 when
the string carries no time component. -/
def PreviousMonthDay (t : DateTime) (spec : Option (Int × Option TimeHM))
    (due : Bool) : DateTime :=
  let monthDay : Int := match spec with
    | some (d, _) => d
    | none => 0
  let parsedTime : TimeHM := match spec with
    | some (_, some tm) => tm
    | _ => ⟨0, 0⟩
  let hasTime : Bool := match spec with
    | some (_, some _) => true
    | _ => false
  let time := if due && !hasTime then (⟨23, 59⟩ : TimeHM) else parsedTime
  -- DayOfMonth: date.replace(day=1) + timedelta(days = month_day - 1)
  let dom := ({ t with day := 1 } : DateTime).addDays (monthDay - 1)
  let nd := dom.combine time
  let fromStart := decide (0 < monthDay)
  pmdLoopDown 1000 (pmdLoopUp 1000 nd t fromStart) t fromStart

/-- `strftime('%Y-%m-%d %H:%M')` helper: zero-pad to two digits. -/
def pad2 (n : Nat) : String :=
  if n < 10 then "0" ++ toString n else toString n

/-- `now.strftime('%Y-%m-%d %H:%M')` for the years at hand (≥ 1000). -/
def fmtDateTime (t : DateTime) : String :=
  toString t.year ++ "-" ++ pad2 t.month ++ "-" ++ pad2 t.day ++ " " ++
    pad2 t.hour ++ ":" ++ pad2 t.minute

example : PreviousTime ⟨2013, 9, 1, 16, 14, 0⟩ none true = ⟨2013, 9, 1, 0, 0, 0⟩ := by
  decide

example : PreviousTime ⟨2013, 9, 1, 16, 14, 0⟩ (some ⟨17, 0⟩) true =
    ⟨2013, 8, 31, 17, 0, 0⟩ := by decide

example : PreviousMonthDay ⟨2013, 9, 12, 22, 0, 0⟩ (some (10, none)) true =
    ⟨2013, 9, 10, 23, 59, 0⟩ := by decide

example : PreviousMonthDay ⟨2013, 9, 12, 22, 0, 0⟩ (some (7, none)) false =
    ⟨2013, 9, 7, 0, 0, 0⟩ := by decide

example : AdvanceByMonths ⟨2013, 9, 10, 23, 59, 0⟩ (-1) true =
    ⟨2013, 8, 10, 23, 59, 0⟩ := by decide

example : DateTime.weekday ⟨2013, 9, 12, 22, 0, 0⟩ = 3 := by decide

/-- The five concrete node classes of node.py.  `NeedsNextActionStub` is a
subclass of `NextAction`; stub instances are created only by query code,
never stored in parsed trees. -/
inductive Variant where
  | file
  | section
  | project
  | nextAction
  | comment
deriving DecidableEq, Repr

/-- Variants that are `DoableNode` subclasses (carry `done`, `blockers`,
`ids`, recurrence attributes). -/
def Variant.isDoable : Variant → Bool
  | .project => true
  | .nextAction => true
  | _ => false

/-- Variants that are `NextAction` instances (`isinstance(node, NextAction)`,
which also accepts the `NeedsNextActionStub` subclass). -/
def Variant.isNextAction : Variant → Bool
  | .nextAction => true
  | _ => false

/-- The `unit` captured by the `EVERY` regex. -/
inductive RecurUnit where
  | day
  | week
  | month
deriving DecidableEq, Repr

/-- A recurrence boundary string (`_recur_unit_boundary` or
`_recur_subunit_visible`), viewed through the three parsers that may
consume it.  node.py stores the raw string and hands it to the
boundary function selected by the unit, so only the matching component
is ever read:
* `asTime`: the result of `strptime(s, '%H:%M')` (day unit);
* `asWeekday`: the result of `dateutil.parser.parse` as
  (Python weekday, optional time) (week unit);
* `asMonthDay`: the result of the `(-?\d+)(\s+\d\d?:\d\d)?` regex
  (month unit).
`none` components mean the corresponding parser fails on the string. -/
structure RecurBoundary where
  asTime : Option TimeHM := none
  asWeekday : Option (Nat × Option TimeHM) := none
  asMonthDay : Option (Int × Option TimeHM) := none
deriving DecidableEq, Repr

/-- The state of one node: the attributes set by `Node.__init__`,
`DoableNode.__init__`, `IndentedNode.__init__` and the token parsing
methods.  Attributes that only exist on some classes (e.g. `blockers`)
are present here for every variant but are only read behind the
corresponding `Variant` checks, mirroring Python's `AttributeError`
discipline. -/
structure NodeData where
  variant : Variant
  text : String := ""
  rawText : List String := []
  contexts : List String := []
  canceledContexts : List String := []
  priority : Option Nat := none
  dueDate : Option DateTime := none
  readyDate : Option DateTime := none
  visibleDate : Option DateTime := none
  inbox : Bool := false
  waiting : Bool := false
  lineInFile : Nat := 1
  indent : Nat := 0
  -- DoableNode attributes
  done : Bool := false
  recurring : Bool := false
  lastDone : Option DateTime := none
  ids : List String := []
  blockers : List String := []
  recurMin : Nat := 1
  recurMax : Nat := 1
  recurUnit : RecurUnit := RecurUnit.day
  recurUnitBoundary : Option RecurBoundary := none
  recurSubunitVisible : Option RecurBoundary := none
  -- Project attribute
  ordered : Bool := false
  -- NextAction attribute
  minutes : Option Nat := none
deriving DecidableEq, Repr

mutual
/-- A node of the parsed forest: its data and its ordered children.
(`Node` and `NodeList` are mutually inductive so that the tree walks
below are structurally recursive and evaluate inside the kernel.) -/
inductive Node where
  | mk (data : NodeData) (children : NodeList)
/-- An ordered list of sibling nodes. -/
inductive NodeList where
  | nil
  | cons (head : Node) (tail : NodeList)
end

def Node.data : Node → NodeData
  | .mk d _ => d

def Node.children : Node → NodeList
  | .mk _ cs => cs

/-- `List.any` over a `NodeList`. -/
def NodeList.any (p : Node → Bool) : NodeList → Bool
  | .nil => false
  | .cons c rest => p c || NodeList.any p rest

/-- The `contexts` property of `Node`, written over the explicit chain
`[node, parent, grandparent, …]`:
`list(self._contexts)` extended with `self.parent.contexts`, then
filtered by `c not in self._canceled_contexts`. -/
def contextsChain : List NodeData → List String
  | [] => []
  | d :: rest =>
    (d.contexts ++ contextsChain rest).filter
      (fun c => !(d.canceledContexts.contains c))

/-- The `visible_date` property over the chain: `max` of own and parent
values when both exist. -/
def visChain : List NodeData → Option DateTime
  | [] => none
  | d :: rest =>
    let pv := visChain rest
    match d.visibleDate, pv with
    | none, _ => pv
    | some v, none => some v
    | some v, some p => some (pymax v p)

/-- The `due_date` property over the chain: `min` of own and parent
values when both exist. -/
def dueChain : List NodeData → Option DateTime
  | [] => none
  | d :: rest =>
    let pv := dueChain rest
    match d.dueDate, pv with
    | none, _ => pv
    | some v, none => some v
    | some v, some p => some (pymin v p)

/-- The `ready_date` property over the chain: `min` of own and parent
values when both exist. -/
def readyChain : List NodeData → Option DateTime
  | [] => none
  | d :: rest =>
    let pv := readyChain rest
    match d.readyDate, pv with
    | none, _ => pv
    | some v, none => some v
    | some v, some p => some (pymin v p)

/-- `str.lower()` for the ASCII context names libvtd uses.  (Written by
hand so that it reduces inside the kernel.) -/
def pyLower (s : String) : String :=
  String.mk (s.toList.map fun c =>
    if 'A' ≤ c && c ≤ 'Z' then Char.ofNat (c.toNat + 32) else c)

/-- `Node.AddContext`: lowercase the name; reserved names set the
`inbox`/`waiting` flag (even when `cancel` is set); otherwise append to
the chosen list if not already present. -/
def addContext (d : NodeData) (context : String) (cancel : Bool) : NodeData :=
  let canonical := pyLower context
  if canonical = "inbox" then { d with inbox := true }
  else if canonical = "waiting" then { d with waiting := true }
  else if cancel then
    if d.canceledContexts.contains canonical then d
    else { d with canceledContexts := d.canceledContexts ++ [canonical] }
  else
    if d.contexts.contains canonical then d
    else { d with contexts := d.contexts ++ [canonical] }

/-- `_interval_boundary_function[unit](d, b, due)` of `DoableNode`. -/
def intervalBoundary (unit : RecurUnit) (t : DateTime)
    (b : Option RecurBoundary) (due : Bool) : DateTime :=
  match unit with
  | .day => PreviousTime t (b.bind RecurBoundary.asTime) due
  | .week => PreviousWeekDay t (b.bind RecurBoundary.asWeekday) due
  | .month => PreviousMonthDay t (b.bind RecurBoundary.asMonthDay) due

/-- `_date_advancing_function[unit](d, n, from_start)` of `DoableNode`. -/
def dateAdvance (unit : RecurUnit) (t : DateTime) (n : Int)
    (fromStart : Bool) : DateTime :=
  match unit with
  | .day => t.addDays n
  | .week => t.addDays (7 * n)
  | .month => AdvanceByMonths t n fromStart

/-- Whether `int(boundary_string.split()[0]) < 1` is false, i.e. the
month anchor counts from the start of the month.  (node.py would raise
`ValueError` on a non-numeric string; such strings never reach this
point through the recurrence grammar.) -/
def boundaryFromStart (b : Option RecurBoundary) : Bool :=
  match b with
  | some bd =>
    match bd.asMonthDay with
    | some (n, _) => decide (1 ≤ n)
    | none => true
  | none => true

/-- `DoableNode._SetRecurringDates`: derive `_visible_date`,
`_ready_date` and `_due_date` from `last_done` and the recurrence
parameters, overwriting the stored fields. -/
def SetRecurringDates (d : NodeData) (lastDone : DateTime) : NodeData :=
  let unit := d.recurUnit
  let dueFromStart := match unit with
    | .month => boundaryFromStart d.recurUnitBoundary
    | _ => true
  let visFromStart := match unit with
    | .month => boundaryFromStart d.recurSubunitVisible
    | _ => true
  let base0 := intervalBoundary unit lastDone d.recurUnitBoundary true
  let base :=
    match d.recurSubunitVisible with
    | none => base0
    | some _ =>
      let previousVisDate := intervalBoundary unit lastDone d.recurSubunitVisible false
      if DateTime.ltb previousVisDate base0 then
        dateAdvance unit base0 (-1) dueFromStart
      else base0
  let vis0 := dateAdvance unit base (d.recurMin : Int) visFromStart
  let vis :=
    match d.recurSubunitVisible with
    | none => vis0
    | some _ =>
      intervalBoundary unit (dateAdvance unit vis0 1 visFromStart)
        d.recurSubunitVisible false
  let ready := dateAdvance unit base (d.recurMax : Int) dueFromStart
  let due := dateAdvance unit base ((d.recurMax : Int) + 1) dueFromStart
  { d with visibleDate := some vis, readyDate := some ready, dueDate := some due }

/-- The `DateStates` enum of node.py. -/
inductive DateStates where
  | invisible
  | ready
  | new
  | due
  | late
deriving DecidableEq, Repr

/-- Python 2 comparison `x < now` where `x` may be `None`
(`None` sorts below every datetime in Python 2; node.py runs on
Python 2, `self.ready_date < now` relies on this). -/
def pyLtOpt (x : Option DateTime) (now : DateTime) : Bool :=
  match x with
  | none => true
  | some v => DateTime.ltb v now

/-- The five-way switch at the end of `DoableNode.DateState`, reading the
inherited date properties. -/
def dateStateSwitch (vis due ready : Option DateTime) (now : DateTime) : DateStates :=
  if (match vis with
      | some v => DateTime.ltb now v
      | none => false) then DateStates.invisible
  else match due with
    | none => DateStates.ready
    | some du =>
      if DateTime.ltb du now then DateStates.late
      else if pyLtOpt ready now then DateStates.due
      else DateStates.ready

/-- `DoableNode.DateState(now)` for a node whose ancestor chain is
`parents` (nearest first): recurring nodes without `last_done` are `new`;
recurring nodes first overwrite their stored dates via
`_SetRecurringDates`; then the five-way switch runs on the inherited
date properties. -/
def DateStateChain (d : NodeData) (parents : List NodeData) (now : DateTime) : DateStates :=
  if d.recurring then
    match d.lastDone with
    | none => DateStates.new
    | some ld =>
      let d' := SetRecurringDates d ld
      dateStateSwitch (visChain (d' :: parents)) (dueChain (d' :: parents))
        (readyChain (d' :: parents)) now
  else
    dateStateSwitch (visChain (d :: parents)) (dueChain (d :: parents))
      (readyChain (d :: parents)) now

/-- `DoableNode.DateState` with its side effect made explicit: the
returned node state reflects the mutation `_SetRecurringDates` performs
on a recurring node with a `last_done` timestamp. -/
def DateStateM (d : NodeData) (parents : List NodeData) (now : DateTime) :
    DateStates × NodeData :=
  if d.recurring then
    match d.lastDone with
    | none => (DateStates.new, d)
    | some ld =>
      let d' := SetRecurringDates d ld
      (dateStateSwitch (visChain (d' :: parents)) (dueChain (d' :: parents))
        (readyChain (d' :: parents)) now, d')
  else
    (dateStateSwitch (visChain (d :: parents)) (dueChain (d :: parents))
      (readyChain (d :: parents)) now, d)

/-- The `Actions` enum of node.py. -/
inductive Actions where
  | markDONE
  | updateLASTDONE
  | defaultCheckoff
deriving DecidableEq, Repr

/-- `DoableNode._PatchMarkDone`: for a node that is not done, a one-line
hunk appending the DONE stamp to the first raw line.  (Python indexes
`self._raw_text[0]`; the tree builder guarantees a parsed node has at
least one raw line, and we render the empty string for an empty list.) -/
def patchMarkDone (d : NodeData) (now : DateTime) : String :=
  if !d.done then
    "@@ -" ++ toString d.lineInFile ++ " +" ++ toString d.lineInFile ++ " @@\n" ++
      "-" ++ d.rawText.headD "" ++ "\n" ++
      "+" ++ d.rawText.headD "" ++ " (DONE " ++ fmtDateTime now ++ ")\n"
  else ""

/-- Consume `n` ASCII digits. -/
def eatDigits : Nat → List Char → Option (List Char)
  | 0, cs => some cs
  | n + 1, c :: cs => if c.isDigit then eatDigits n cs else none
  | _ + 1, [] => none

/-- Consume a literal character sequence. -/
def eatLit : List Char → List Char → Option (List Char)
  | [], cs => some cs
  | l :: ls, c :: cs => if c = l then eatLit ls cs else none
  | _ :: _, [] => none

/-- Match the core of `_last_done_pattern` at the current position:
`\(LASTDONE \d{4}-\d{2}-\d{2}( \d{2}:\d{2})?\)` followed by the
`_r_end` lookahead `[.!?)";:]*(\s|$)`.  Returns the rest of the input
after the matched text (the lookahead is not consumed). -/
def lastdoneCore (cs : List Char) : Option (List Char) :=
  (eatLit "(LASTDONE ".toList cs).bind fun cs =>
  (eatDigits 4 cs).bind fun cs =>
  (eatLit ['-'] cs).bind fun cs =>
  (eatDigits 2 cs).bind fun cs =>
  (eatLit ['-'] cs).bind fun cs =>
  (eatDigits 2 cs).bind fun cs =>
  let afterTime :=
    ((eatLit [' '] cs).bind fun x =>
     (eatDigits 2 x).bind fun x =>
     (eatLit [':'] x).bind fun x =>
     eatDigits 2 x).getD cs
  (eatLit [')'] afterTime).bind fun rem =>
  let after := rem.dropWhile fun c =>
    c = '.' || c = '!' || c = '?' || c = ')' || c = '"' || c = ';' || c = ':'
  match after with
  | [] => some rem
  | c :: _ => if c = ' ' || c = '\t' then some rem else none

/-- The replacement text of `_PatchUpdateLastdone`'s `updater`: the
matched `(LASTDONE …)` token with its datetime rewritten to `now`. -/
def lastdoneRepl (now : DateTime) : List Char :=
  ("(LASTDONE " ++ fmtDateTime now ++ ")").toList

/-- Left-to-right scan of `_last_done_pattern.sub(updater, line)` past the
first position: every later match site must start with the space of
`_r_start`.  Fuel-bounded; each step consumes at least one character, so
`cs.length` fuel suffices. -/
def lastdoneGo (now : DateTime) : Nat → List Char → List Char
  | 0, cs => cs
  | _ + 1, [] => []
  | fuel + 1, c :: rest =>
    if c = ' ' then
      match lastdoneCore rest with
      | some rem => ' ' :: (lastdoneRepl now ++ lastdoneGo now fuel rem)
      | none => ' ' :: lastdoneGo now fuel rest
    else c :: lastdoneGo now fuel rest

/-- `self._last_done_pattern.sub(updater, line)`: rewrite every
`(LASTDONE …)` token (at line start or after a space) so that its
timestamp reads `now`. -/
def lastdoneSub (now : DateTime) (line : String) : String :=
  let cs := line.toList
  let out := match lastdoneCore cs with
    | some rem => lastdoneRepl now ++ lastdoneGo now cs.length rem
    | none => lastdoneGo now cs.length cs
  String.mk out

/-- `DoableNode._PatchUpdateLastdone` with its side effect made explicit
(it calls `self.DateState(now)`, which overwrites a recurring node's
stored dates): empty for done or non-recurring nodes; otherwise a hunk
over all raw lines rewriting any `(LASTDONE …)` timestamp to `now`, and
appending a fresh ` (LASTDONE now)` to the first line when the node's
state is `new`. -/
def patchUpdateLastdoneM (d : NodeData) (parents : List NodeData)
    (now : DateTime) : String × NodeData :=
  if d.done || !d.recurring then ("", d)
  else
    let header := "@@ -" ++ toString d.lineInFile ++ "," ++
      toString d.rawText.length ++ " +" ++ toString d.lineInFile ++ "," ++
      toString d.rawText.length ++ " @@"
    let minus := d.rawText.map (fun l => "-" ++ l)
    let plus0 := d.rawText.map (fun l => "+" ++ lastdoneSub now l)
    let stateAndNode := DateStateM d parents now
    let plus := if stateAndNode.1 = DateStates.new then
        match plus0 with
        | [] => []
        | h :: t => (h ++ " (LASTDONE " ++ fmtDateTime now ++ ")") :: t
      else plus0
    (String.intercalate "\n" ([header] ++ minus ++ plus ++ [""]), stateAndNode.2)

/-- `Node.Patch(action, now)`.  `_diff_functions` is a defaultdict whose
default entry returns the empty string; `DoableNode.__init__` registers
MarkDONE, UpdateLASTDONE and DefaultCheckoff (the last one re-registered
to UpdateLASTDONE by `_ParseRecur` exactly when `recurring` is set).
File, Section and Comment never register anything.  The returned
`NodeData` carries the side effect of the invoked diff function. -/
def nodePatch (d : NodeData) (parents : List NodeData) (action : Actions)
    (now : DateTime) : String × NodeData :=
  if d.variant.isDoable then
    match action with
    | Actions.markDONE => (patchMarkDone d now, d)
    | Actions.updateLASTDONE => patchUpdateLastdoneM d parents now
    | Actions.defaultCheckoff =>
      if d.recurring then patchUpdateLastdoneM d parents now
      else (patchMarkDone d now, d)
  else ("", d)

/-- The state of a `TrustedSystem`: the parsed `File` trees (the values
of `self._files`) and the context filter. -/
structure TrustedSystem where
  files : List Node
  contextsToInclude : List String := []
  contextsToExclude : List String := []

/-- `TrustedSystem._BlockerExists(id)`.  Its body runs
`node = file.NodeWithId(id)` — but no class in the repository defines a
`NodeWithId` method, so the first registered file raises
`AttributeError` (modelled as `Except.error ()`).  With no files the
loop body never runs and the function returns `False`.  (The local
`Matcher` closure in the source is dead code: it is defined but never
called.) -/
def BlockerExists (files : List Node) (blockerId : String) : Except Unit Bool :=
  match files with
  | [] => Except.ok false
  | _ :: _ => Except.error ()

/-- The `for b in node.blockers: if self._BlockerExists(id=b): return True`
loop of `_Blocked`, propagating the `AttributeError` raised inside
`_BlockerExists`. -/
def blockedLoop (files : List Node) : List String → Except Unit Bool
  | [] => Except.ok false
  | b :: rest =>
    match BlockerExists files b with
    | Except.error e => Except.error e
    | Except.ok true => Except.ok true
    | Except.ok false => blockedLoop files rest

/-- `TrustedSystem._Blocked(node)` over the explicit ancestor chain
(`node, parent, …`; the empty chain is Python's `None` base case).
Reading `.blockers` on a non-doable node raises `AttributeError`; the
`try`/`except` in `_Blocked` turns any `AttributeError` — including the
one `_BlockerExists` raises from the missing `NodeWithId` — into an
immediate `False`. -/
def Blocked (files : List Node) : List NodeData → Bool
  | [] => false
  | d :: rest =>
    if d.variant.isDoable then
      match blockedLoop files d.blockers with
      | Except.error _ => false
      | Except.ok true => true
      | Except.ok false => Blocked files rest
    else false

mutual
/-- All node states of a tree (the node itself and, recursively, its
children). -/
def allNodeData : Node → List NodeData
  | .mk d cs => d :: allNodeDataList cs
/-- `allNodeData` over a list of sibling trees. -/
def allNodeDataList : NodeList → List NodeData
  | .nil => []
  | .cons c rest => allNodeData c ++ allNodeDataList rest
end

/-- The blocker-existence test the spec describes (and the dead `Matcher`
closure in `_BlockerExists` implements): some node in some file carries
the id and is not done. -/
def SpecBlockerExists (files : List Node) (blockerId : String) : Bool :=
  files.any fun f => (allNodeData f).any fun n =>
    n.ids.contains blockerId && !n.done

mutual
/-- `TrustedSystem.Collect`: post-order gather of `(node, ancestors)`
pairs whose `matcher` accepts them; `pruner` stops descent (children of
a pruned node are not explored, but the node itself is still offered to
`matcher`). -/
def collectNode (matcher : NodeData → NodeList → List NodeData → Bool)
    (pruner : NodeData → Bool) (ancestors : List NodeData) :
    Node → List (NodeData × List NodeData)
  | .mk d cs =>
    (if pruner d then []
     else collectList matcher pruner (d :: ancestors) cs) ++
    (if matcher d cs ancestors then [(d, ancestors)] else [])
/-- The recursion of `Collect` over the children of a node. -/
def collectList (matcher : NodeData → NodeList → List NodeData → Bool)
    (pruner : NodeData → Bool) (ancestors : List NodeData) :
    NodeList → List (NodeData × List NodeData)
  | .nil => []
  | .cons c rest => collectNode matcher pruner ancestors c ++
      collectList matcher pruner ancestors rest
end

/-- The default pruner of `Collect`:
`'done' in x.__dict__ and x.done` — only doable nodes have a `done`
attribute. -/
def defaultPruner (d : NodeData) : Bool :=
  d.variant.isDoable && d.done

/-- `TrustedSystem._OkContexts(node)`. -/
def OkContexts (sys : TrustedSystem) (d : NodeData) (parents : List NodeData) : Bool :=
  let cs := contextsChain (d :: parents)
  if cs.any (fun c => sys.contextsToExclude.contains c) then false
  else cs.any (fun c => sys.contextsToInclude.contains c) ||
    sys.contextsToInclude.isEmpty

/-- `TrustedSystem._VisibleAction(node, now)`. -/
def VisibleAction (sys : TrustedSystem) (d : NodeData) (parents : List NodeData)
    (now : DateTime) : Bool :=
  d.variant.isNextAction && !d.done &&
    decide (DateStateChain d parents now ≠ DateStates.invisible) &&
    !(Blocked sys.files (d :: parents))

/-- `TrustedSystem._VisibleNextAction(node, now)`. -/
def VisibleNextAction (sys : TrustedSystem) (d : NodeData)
    (parents : List NodeData) (now : DateTime) : Bool :=
  VisibleAction sys d parents now && !(d.recurring || d.waiting)

/-- The text of `NeedsNextActionStub`. -/
def stubText : String := "\x7bMISSING Next Action\x7d"

/-- `NeedsNextActionStub(project)`: a `NextAction` carrying the stub
text; its `Patch` and `Source` delegate to the parent project (the
delegation is not needed by the claims settled here). -/
def needsNextActionStub (project : NodeData) : NodeData :=
  { variant := Variant.nextAction, text := stubText }

/-- `TrustedSystem.ProjectsWithoutNextActions`: non-done Projects with no
direct child that is a non-done NextAction or non-done Project. -/
def projectsWithoutNextActions (sys : TrustedSystem) :
    List (NodeData × List NodeData) :=
  (sys.files.map (collectNode
    (fun d cs _ => decide (d.variant = Variant.project) && !d.done &&
      !(cs.any fun c => (c.data.variant.isNextAction ||
          decide (c.data.variant = Variant.project)) && !c.data.done))
    defaultPruner [])).flatten

/-- `TrustedSystem.NextActions(now)`: visible non-recurring non-waiting
actions passing the context filter, plus a `NeedsNextActionStub` for
each visible, unblocked, filter-passing project without next actions. -/
def nextActions (sys : TrustedSystem) (now : DateTime) : List NodeData :=
  let base := ((sys.files.map (collectNode
    (fun d _ anc => VisibleNextAction sys d anc now && OkContexts sys d anc)
    defaultPruner [])).flatten).map (fun p => p.1)
  let stubs := (projectsWithoutNextActions sys).filterMap fun p =>
    let vis := decide (DateStateChain p.1 p.2 now ≠ DateStates.invisible) &&
      !(Blocked sys.files (p.1 :: p.2))
    if vis && OkContexts sys p.1 p.2 then some (needsNextActionStub p.1)
    else none
  base ++ stubs

/-- `TrustedSystem.AllActions(now)`: the collected visible, non-waiting,
filter-passing actions.  (The body contains no stub handling.) -/
def allActions (sys : TrustedSystem) (now : DateTime) : List NodeData :=
  ((sys.files.map (collectNode
    (fun d _ anc => VisibleAction sys d anc now && OkContexts sys d anc &&
      !d.waiting)
    defaultPruner [])).flatten).map (fun p => p.1)

/-- One lexical token of a line of input text, as recognised by the
regex patterns of node.py.  A shallow model of the lexer: the patterns
are disjoint, anchored at a line start or a space, and each carries the
captured groups shown here.  Whatever the patterns do not consume is a
`word`. -/
inductive Tok where
  | word (s : String)
  | dueDate (y : Int) (m d : Nat) (time : Option TimeHM) (within : Option Nat)
  | visDate (y : Int) (m d : Nat) (time : Option TimeHM)
  | contextTok (keep : Bool) (cancel : Bool) (name : String)
  | priorityTok (p : Nat)
  | doneTok
  | idTok (s : String)
  | afterTok (s : String)
  | recurTok (mn : Option Nat) (mx : Option Nat) (unit : RecurUnit)
      (vis : Option RecurBoundary) (bdry : Option RecurBoundary)
  | lastdoneTok (y : Int) (m d h mi : Nat)
  | timeTok (n : Nat)
deriving DecidableEq, Repr

/-- Render a date as `YYYY-MM-DD`. -/
def fmtDateOnly (y : Int) (m d : Nat) : String :=
  toString y ++ "-" ++ pad2 m ++ "-" ++ pad2 d

/-- Render a `RecurUnit` keyword. -/
def RecurUnit.render : RecurUnit → String
  | .day => "day"
  | .week => "week"
  | .month => "month"

/-- The source text a token stands for; used when a parse handler
rejects a token (Python's `return match.group(0)`) and for tokens a
node class does not strip. -/
def Tok.render : Tok → String
  | .word s => s
  | .dueDate y m d tm w =>
    "<" ++ fmtDateOnly y m d ++
      (match tm with | some t => " " ++ pad2 t.hour ++ ":" ++ pad2 t.minute | none => "") ++
      (match w with | some n => "(" ++ toString n ++ ")" | none => "")
  | .visDate y m d tm =>
    ">" ++ fmtDateOnly y m d ++
      (match tm with | some t => " " ++ pad2 t.hour ++ ":" ++ pad2 t.minute | none => "")
  | .contextTok keep cancel name =>
    (if keep then "@@" else "@") ++ (if cancel then "!" else "") ++ name
  | .priorityTok p => "@p:" ++ toString p
  | .doneTok => "(DONE)"
  | .idTok s => "#" ++ s
  | .afterTok s => "@after:" ++ s
  | .recurTok _ _ unit _ _ => "EVERY " ++ unit.render
  | .lastdoneTok y m d h mi =>
    "(LASTDONE " ++ fmtDateOnly y m d ++ " " ++ pad2 h ++ ":" ++ pad2 mi ++ ")"
  | .timeTok n => "@t:" ++ toString n

/-- `strptime` date(-time) validity: the regexes guarantee digit counts,
`strptime` additionally rejects impossible calendar dates and times. -/
def validDateTok (y : Int) (m d : Nat) (tm : Option TimeHM) : Bool :=
  decide (1 ≤ m) && decide (m ≤ 12) && decide (1 ≤ d) &&
    decide (d ≤ daysInMonth y m) &&
    (match tm with
     | some t => decide (t.hour ≤ 23) && decide (t.minute ≤ 59)
     | none => true)

/-- Run one `pattern.sub(handler, text)` pass over the token list,
threading the node state; a handler returns the replacement token
(`none` when the match is consumed). -/
def runPass (f : NodeData → Tok → NodeData × Option Tok) :
    NodeData → List Tok → NodeData × List Tok
  | d, [] => (d, [])
  | d, t :: ts =>
    let first := f d t
    let rest := runPass f first.1 ts
    (rest.1, (match first.2 with | some tok => [tok] | none => []) ++ rest.2)

/-- `Node._ParseDueDate`: on a valid date set `_due_date` (end of day
23:59:59 when no time is given) and `_ready_date` (`due - N days`,
default 1); on `ValueError` keep the source text. -/
def dueHandler (d : NodeData) : Tok → NodeData × Option Tok
  | .dueDate y m dd tm w =>
    if validDateTok y m dd tm then
      let du : DateTime := match tm with
        | some t => ⟨y, m, dd, t.hour, t.minute, 0⟩
        | none => ⟨y, m, dd, 23, 59, 59⟩
      let daysBefore : Nat := match w with | some n => n | none => 1
      ({ d with dueDate := some du,
                readyDate := some (du.addDays (-(daysBefore : Int))) }, none)
    else (d, some (Tok.word (Tok.render (Tok.dueDate y m dd tm w))))
  | t => (d, some t)

/-- `Node._ParseVisDate`: on a valid date set `_visible_date` (midnight
when no time is given); on `ValueError` keep the source text. -/
def visHandler (d : NodeData) : Tok → NodeData × Option Tok
  | .visDate y m dd tm =>
    if validDateTok y m dd tm then
      let v : DateTime := match tm with
        | some t => ⟨y, m, dd, t.hour, t.minute, 0⟩
        | none => ⟨y, m, dd, 0, 0, 0⟩
      ({ d with visibleDate := some v }, none)
    else (d, some (Tok.word (Tok.render (Tok.visDate y m dd tm))))
  | t => (d, some t)

/-- `Node._ParseContext`: add the context (or canceled context); a
double-`@` keeps the bare word in the rendered text. -/
def contextHandler (d : NodeData) : Tok → NodeData × Option Tok
  | .contextTok keep cancel name =>
    (addContext d name cancel, if keep then some (Tok.word name) else none)
  | t => (d, some t)

/-- `Node._ParsePriority`. -/
def priorityHandler (d : NodeData) : Tok → NodeData × Option Tok
  | .priorityTok p => ({ d with priority := some p }, none)
  | t => (d, some t)

/-- `DoableNode._ParseDone`. -/
def doneHandler (d : NodeData) : Tok → NodeData × Option Tok
  | .doneTok => ({ d with done := true }, none)
  | t => (d, some t)

/-- `DoableNode._ParseId`. -/
def idHandler (d : NodeData) : Tok → NodeData × Option Tok
  | .idTok s => ({ d with ids := d.ids ++ [s] }, none)
  | t => (d, some t)

/-- `DoableNode._ParseAfter`. -/
def afterHandler (d : NodeData) : Tok → NodeData × Option Tok
  | .afterTok s => ({ d with blockers := d.blockers ++ [s] }, none)
  | t => (d, some t)

/-- `DoableNode._ParseRecur`: `max` defaults to 1, `min` defaults to
`max`; also re-registers DefaultCheckoff to UpdateLASTDONE (captured by
the `recurring` flag, which `nodePatch` consults). -/
def recurHandler (d : NodeData) : Tok → NodeData × Option Tok
  | .recurTok mn mx unit vis bdry =>
    let mx' : Nat := match mx with | some n => n | none => 1
    let mn' : Nat := match mn with | some n => n | none => mx'
    ({ d with recurring := true, recurMax := mx', recurMin := mn',
              recurUnit := unit, recurUnitBoundary := bdry,
              recurSubunitVisible := vis }, none)
  | t => (d, some t)

/-- `DoableNode._ParseLastDone`: on a valid datetime set `last_done`;
on `ValueError` keep the source text. -/
def lastdoneHandler (d : NodeData) : Tok → NodeData × Option Tok
  | .lastdoneTok y m dd h mi =>
    if validDateTok y m dd (some ⟨h, mi⟩) then
      ({ d with lastDone := some ⟨y, m, dd, h, mi, 0⟩ }, none)
    else (d, some (Tok.word (Tok.render (Tok.lastdoneTok y m dd h mi))))
  | t => (d, some t)

/-- `NextAction._ParseTime`. -/
def timeHandler (d : NodeData) : Tok → NodeData × Option Tok
  | .timeTok n => ({ d with minutes := some n }, none)
  | t => (d, some t)

/-- The token passes common to every `Node`: due date, visible date,
contexts, priority — in source order. -/
def parseCommonToks (d : NodeData) (ts : List Tok) : NodeData × List Tok :=
  let p1 := runPass dueHandler d ts
  let p2 := runPass visHandler p1.1 p1.2
  let p3 := runPass contextHandler p2.1 p2.2
  runPass priorityHandler p3.1 p3.2

/-- `_ParseSpecializedTokens`: `DoableNode` (Project, NextAction) strips
done/id/after/recur/lastdone; `NextAction` additionally strips `@t:N`;
File, Section and Comment strip nothing extra. -/
def parseSpecializedToks (d : NodeData) (ts : List Tok) : NodeData × List Tok :=
  match d.variant with
  | Variant.project =>
    let p1 := runPass doneHandler d ts
    let p2 := runPass idHandler p1.1 p1.2
    let p3 := runPass afterHandler p2.1 p2.2
    let p4 := runPass recurHandler p3.1 p3.2
    runPass lastdoneHandler p4.1 p4.2
  | Variant.nextAction =>
    let p1 := runPass doneHandler d ts
    let p2 := runPass idHandler p1.1 p1.2
    let p3 := runPass afterHandler p2.1 p2.2
    let p4 := runPass recurHandler p3.1 p3.2
    let p5 := runPass lastdoneHandler p4.1 p4.2
    runPass timeHandler p5.1 p5.2
  | _ => (d, ts)

/-- One raw line of input, as seen by `AbsorbText`: the raw string (kept
in `raw_text`), its leading-space count and blankness (used by
`IndentedNode._CanAbsorbText`), and its lexer view. -/
structure Line where
  raw : String
  leadingSpaces : Nat := 0
  isBlank : Bool := false
  toks : List Tok := []

/-- `_CanAbsorbText`: `File` never absorbs; a plain `Node` (Section)
absorbs only while it has no text; an `IndentedNode` (Project,
NextAction, Comment) absorbs its first line always and later lines iff
they are blank or indented by at least `indent + 2` spaces. -/
def canAbsorbText (d : NodeData) (l : Line) : Bool :=
  match d.variant with
  | Variant.file => false
  | Variant.section => decide (d.text = "")
  | _ =>
    if d.text = "" then true
    else l.isBlank || decide (d.indent + 2 ≤ l.leadingSpaces)

/-- `Node.AbsorbText(text, raw_text)`: check `_CanAbsorbText` first and
return `False` with the node untouched when it fails; otherwise append
the raw line, run the token passes, and append the stripped residue to
the text. -/
def absorbData (d : NodeData) (l : Line) : Bool × NodeData :=
  if !(canAbsorbText d l) then (false, d)
  else
    let d0 := { d with rawText := d.rawText ++ [l.raw] }
    let common := parseCommonToks d0 l.toks
    let special := parseSpecializedToks common.1 common.2
    let residue := String.intercalate " " ((special.2.map Tok.render).filter
      (fun s => s ≠ ""))
    (true, { special.1 with
      text := (if special.1.text = "" then "" else special.1.text ++ "\n") ++
        residue })

/-- `AbsorbText` on a tree node: the children are untouched. -/
def Node.absorbText (n : Node) (l : Line) : Bool × Node :=
  match n with
  | .mk d cs =>
    let r := absorbData d l
    (r.1, .mk r.2 cs)

/-!
## Claim-side definitions

Definitions in this section transcribe what the specification (and the
claims derived from it) say, to be compared against the embedded code.
-/

/-- The five-way switch exactly as claim C4 words it: `invisible` if a
visible date exists and `now` precedes it, `ready` if the due date is
absent, `late` if the due date has passed, `due` if the ready date has
passed, else `ready`.  (It reads an absent ready date as "not `<
now`".) -/
def DateStateClaimSwitch (vis due ready : Option DateTime) (now : DateTime) :
    DateStates :=
  if (match vis with
      | some v => DateTime.ltb now v
      | none => false) then DateStates.invisible
  else match due with
    | none => DateStates.ready
    | some du =>
      if DateTime.ltb du now then DateStates.late
      else if (match ready with
               | some r => DateTime.ltb r now
               | none => false) then DateStates.due
      else DateStates.ready

/-- The effective-context formula exactly as claim C2 words it: the
union of the own context labels along the chain minus the union of the
canceled contexts along the chain. -/
def contextsClaimFormula (chain : List NodeData) : List String :=
  ((chain.map NodeData.contexts).flatten).filter
    (fun c => !(chain.any fun d => d.canceledContexts.contains c))

/-- The MarkDONE hunk exactly as claim C7 words it: header
`@@ -L,N +L,N @@` with `L = line_in_file` and `N` the number of raw
lines, and one changed line appending the DONE stamp to the first raw
line. -/
def claimC7Patch (d : NodeData) (now : DateTime) : String :=
  "@@ -" ++ toString d.lineInFile ++ "," ++ toString d.rawText.length ++
    " +" ++ toString d.lineInFile ++ "," ++ toString d.rawText.length ++
    " @@\n" ++
    "-" ++ d.rawText.headD "" ++ "\n" ++
    "+" ++ d.rawText.headD "" ++ " (DONE " ++ fmtDateTime now ++ ")\n"

/-- The MarkDONE hunk as the amended claim C7 words it: header
`@@ -L +L @@` with no line counts, one removed line (the first raw
line) and one added line appending ` (DONE YYYY-MM-DD HH:MM)` to it. -/
def claimC7AmendedPatch (d : NodeData) (now : DateTime) : String :=
  "@@ -" ++ toString d.lineInFile ++ " +" ++ toString d.lineInFile ++
    " @@\n" ++
    "-" ++ d.rawText.headD "" ++ "\n" ++
    "+" ++ d.rawText.headD "" ++ " (DONE " ++ fmtDateTime now ++ ")\n"

/-- Equality of every `NodeData` field except the three stored dates
(`_visible_date`, `_ready_date`, `_due_date`). -/
def eqExceptDates (a b : NodeData) : Prop :=
  a.variant = b.variant ∧ a.text = b.text ∧ a.rawText = b.rawText ∧
  a.contexts = b.contexts ∧ a.canceledContexts = b.canceledContexts ∧
  a.priority = b.priority ∧ a.inbox = b.inbox ∧ a.waiting = b.waiting ∧
  a.lineInFile = b.lineInFile ∧ a.indent = b.indent ∧ a.done = b.done ∧
  a.recurring = b.recurring ∧ a.lastDone = b.lastDone ∧ a.ids = b.ids ∧
  a.blockers = b.blockers ∧ a.recurMin = b.recurMin ∧
  a.recurMax = b.recurMax ∧ a.recurUnit = b.recurUnit ∧
  a.recurUnitBoundary = b.recurUnitBoundary ∧
  a.recurSubunitVisible = b.recurSubunitVisible ∧ a.ordered = b.ordered ∧
  a.minutes = b.minutes

/-!
## Concrete inputs used by the claim theorems
-/

/-- `@ Second action @after:firstAction` (line 1 of the blocking test
file; `ids[0]` is the synthetic internal id). -/
def c1second : NodeData :=
  { variant := Variant.nextAction, text := "Second action",
    rawText := ["@ Second action @after:firstAction"], lineInFile := 1,
    ids := ["*1"], blockers := ["firstAction"] }

/-- `@ First action #firstAction` (line 2 of the blocking test file). -/
def c1first : NodeData :=
  { variant := Variant.nextAction, text := "First action",
    rawText := ["@ First action #firstAction"], lineInFile := 2,
    ids := ["*2", "firstAction"] }

/-- The `File` node owning the two actions above. -/
def c1fileData : NodeData := { variant := Variant.file }

/-- A trusted system holding the two-action blocking file of
`testExplicitBlockers`. -/
def c1sys : TrustedSystem :=
  { files := [Node.mk c1fileData (NodeList.cons (Node.mk c1second NodeList.nil)
      (NodeList.cons (Node.mk c1first NodeList.nil) NodeList.nil))] }

/-- An arbitrary query instant for the undated examples. -/
def qnow : DateTime := ⟨2013, 10, 1, 12, 0, 0⟩

/-- `# Ordered project` with no children (the
`testAllIncludesMissingNextActions` input). -/
def c3project : NodeData :=
  { variant := Variant.project, text := "Ordered project", ordered := true,
    rawText := ["# Ordered project"], lineInFile := 1 }

/-- A trusted system holding only the childless ordered project. -/
def c3sys : TrustedSystem :=
  { files := [Node.mk { variant := Variant.file }
      (NodeList.cons (Node.mk c3project NodeList.nil) NodeList.nil)] }

/-- `@ Pay rent EVERY month [7 - 10] (LASTDONE 2013-09-12 22:00)` after
parsing: `_ParseRecur` captures max = 1 (no count given), min = max,
unit = month, subunit-visible string `7`, unit-boundary string `10`;
`_ParseLastDone` captures the timestamp. -/
def rentNode : NodeData :=
  { variant := Variant.nextAction, text := "Pay rent",
    rawText := ["@ Pay rent EVERY month [7 - 10] (LASTDONE 2013-09-12 22:00)"],
    recurring := true, lastDone := some ⟨2013, 9, 12, 22, 0, 0⟩,
    recurUnit := RecurUnit.month, recurMin := 1, recurMax := 1,
    recurUnitBoundary := some { asMonthDay := some (10, none) },
    recurSubunitVisible := some { asMonthDay := some (7, none) } }

/-- The rent node with a stored visible date, to exhibit the mutation
`DateState` performs on it. -/
def c9node : NodeData :=
  { rentNode with visibleDate := some ⟨2013, 1, 1, 0, 0, 0⟩ }

/-- A NextAction whose own label `home` is canceled at its parent. -/
def c2child : NodeData := addContext { variant := Variant.nextAction } "home" false

/-- A Project that cancels the context `home` (`@!home`). -/
def c2parent : NodeData := addContext { variant := Variant.project } "home" true

/-- An undone two-raw-line NextAction starting at line 3. -/
def c7node : NodeData :=
  { variant := Variant.nextAction, text := "task one",
    rawText := ["@ task one", "  continuation"], lineInFile := 3 }

/-- A fixed `now` for the patch examples. -/
def patchNow : DateTime := ⟨2013, 10, 31, 17, 30, 0⟩

/-!
## Claim theorems
-/

/-- C1: in the code as written, blocking never applies once a file is
registered.  On the `testExplicitBlockers` file, the id `firstAction`
names an existing unfinished doable (so the claim requires `Second
action` to be blocked and excluded from `NextActions`), yet `_Blocked`
returns false — `_BlockerExists` calls the nonexistent `File.NodeWithId`
and the resulting `AttributeError` is swallowed — and `NextActions`
lists both actions. -/
theorem blocking_never_applies_with_registered_file :
    SpecBlockerExists c1sys.files "firstAction" = true ∧
    Blocked c1sys.files [c1second, c1fileData] = false ∧
    (nextActions c1sys qnow).map NodeData.text =
      ["Second action", "First action"] := by decide

/-- Helper for C1: with at least one registered file, `_Blocked` is
false on every chain — the `AttributeError` raised by the missing
`NodeWithId` is caught as "not blocked" whenever a blockers list is
non-empty, and empty blockers lists never block. -/
theorem blocked_always_false_of_files_nonempty (f : Node) (fs : List Node)
    (chain : List NodeData) : Blocked (f :: fs) chain = false := by
  induction chain with
  | nil => rfl
  | cons d rest ih =>
    unfold Blocked
    cases d.variant.isDoable
    · simp
    · simp only [if_true]
      cases d.blockers with
      | nil => simpa [blockedLoop] using ih
      | cons b bs => simp [blockedLoop, BlockerExists]

/-- C3: on the `testAllIncludesMissingNextActions` input (a single
childless ordered project), `AllActions` returns the empty list — it
contains no stub handling — while `NextActions` does produce the
`\x7bMISSING Next Action\x7d` stub for the same system. -/
theorem allActions_lacks_missing_next_action_stub :
    allActions c3sys qnow = [] ∧
    (nextActions c3sys qnow).map NodeData.text = [stubText] := by decide

/-- C5: the parsed `@ Pay rent EVERY month [7 - 10]
(LASTDONE 2013-09-12 22:00)` action is invisible at 2013-10-06T23:00,
due at 2013-10-07T01:00, due at 2013-10-10T23:00, and late at
2013-10-11T01:00. -/
theorem rent_scenario_date_states :
    DateStateChain rentNode [] ⟨2013, 10, 6, 23, 0, 0⟩ = DateStates.invisible ∧
    DateStateChain rentNode [] ⟨2013, 10, 7, 1, 0, 0⟩ = DateStates.due ∧
    DateStateChain rentNode [] ⟨2013, 10, 10, 23, 0, 0⟩ = DateStates.due ∧
    DateStateChain rentNode [] ⟨2013, 10, 11, 1, 0, 0⟩ = DateStates.late := by
  decide

/-- C7 counterexample: on a two-raw-line undone node at line 3, the
MarkDONE hunk's header is `@@ -3 +3 @@`, not the claimed
`@@ -3,2 +3,2 @@` form. -/
theorem markDone_header_counterexample :
    patchMarkDone c7node patchNow =
      "@@ -3 +3 @@\n-@ task one\n+@ task one (DONE 2013-10-31 17:30)\n" ∧
    patchMarkDone c7node patchNow ≠ claimC7Patch c7node patchNow := by decide

/-- C7 (amended): the MarkDONE patch is empty exactly for done nodes and
otherwise is the one-line hunk with count-free header `@@ -L +L @@`
whose added line appends the DONE stamp to the first raw line. -/
theorem markDone_patch_shape (d : NodeData) (now : DateTime) :
    patchMarkDone d now = if d.done then "" else claimC7AmendedPatch d now := by
  cases hd : d.done <;> simp [patchMarkDone, claimC7AmendedPatch, hd]

/-- C8: a failed `AbsorbText` leaves the node (data and children) in
exactly its pre-call state — the `_CanAbsorbText` guard runs before any
mutation. -/
theorem absorbText_false_is_noop (n : Node) (l : Line)
    (h : (Node.absorbText n l).1 = false) : (Node.absorbText n l).2 = n := by
  cases n with
  | mk d cs =>
    cases hc : canAbsorbText d l with
    | true => simp [Node.absorbText, absorbData, hc] at h
    | false => simp [Node.absorbText, absorbData, hc]

/-- Witness for C8, at the under-indented continuation line of
`testAbsorption`. -/
theorem absorbText_false_is_noop_witness :
    (Node.absorbText
      (Node.mk { variant := Variant.nextAction, text := "NextAction which",
                 indent := 2 } NodeList.nil)
      { raw := "  is NOT indented enough", leadingSpaces := 2,
        toks := [Tok.word "is NOT indented enough"] }).1 = false ∧
    (Node.absorbText
      (Node.mk { variant := Variant.nextAction, text := "NextAction which",
                 indent := 2 } NodeList.nil)
      { raw := "  is NOT indented enough", leadingSpaces := 2,
        toks := [Tok.word "is NOT indented enough"] }).2 =
      Node.mk { variant := Variant.nextAction, text := "NextAction which",
                indent := 2 } NodeList.nil :=
  ⟨by decide, absorbText_false_is_noop _ _ (by decide)⟩

/-- C10: a File, Section or Comment registers no diff function, so
`Patch` falls back to the defaultdict's identity patch and returns the
empty string (with the node untouched) for every action. -/
theorem nodePatch_empty_for_nondoable (d : NodeData) (parents : List NodeData)
    (a : Actions) (now : DateTime)
    (h : d.variant = Variant.file ∨ d.variant = Variant.section ∨
      d.variant = Variant.comment) :
    nodePatch d parents a now = ("", d) := by
  have hdo : d.variant.isDoable = false := by
    rcases h with h | h | h <;> simp [h, Variant.isDoable]
  simp [nodePatch, hdo]

/-- Witness for C10 at a Section node. -/
theorem nodePatch_empty_for_nondoable_witness :
    nodePatch { variant := Variant.section } [] Actions.markDONE patchNow =
      ("", { variant := Variant.section }) :=
  nodePatch_empty_for_nondoable _ [] _ _ (Or.inr (Or.inl rfl))

/-- C9 counterexample: `DateState` on a recurring node with a
`last_done` overwrites the stored visible date (here from 2013-01-01 to
the derived 2013-10-07), so it does not leave every field unchanged. -/
theorem dateState_mutation_counterexample :
    c9node.visibleDate = some ⟨2013, 1, 1, 0, 0, 0⟩ ∧
    (DateStateM c9node [] qnow).2.visibleDate = some ⟨2013, 10, 7, 0, 0, 0⟩ ∧
    (DateStateM c9node [] qnow).2 ≠ c9node := by decide

/-- `eqExceptDates` is reflexive. -/
theorem eqExceptDates_refl (d : NodeData) : eqExceptDates d d := by
  simp [eqExceptDates]

/-- `_SetRecurringDates` touches only the three stored date fields. -/
theorem setRecurringDates_frame (d : NodeData) (ld : DateTime) :
    eqExceptDates (SetRecurringDates d ld) d := by
  simp [SetRecurringDates, eqExceptDates]

/-- C9 (amended): `DateState` leaves every field except the three stored
dates unchanged, and changes nothing at all unless the node is recurring
with a `last_done`; generating a MarkDONE patch never mutates the node;
generating any patch (including UpdateLASTDONE, which calls `DateState`)
can change only the three stored date fields. -/
theorem dateState_and_patch_frame (d : NodeData) (parents : List NodeData)
    (now : DateTime) (a : Actions) :
    eqExceptDates (DateStateM d parents now).2 d ∧
    ((d.recurring = false ∨ d.lastDone = none) →
      (DateStateM d parents now).2 = d) ∧
    (nodePatch d parents Actions.markDONE now).2 = d ∧
    eqExceptDates (nodePatch d parents a now).2 d := by
  have hm : eqExceptDates (DateStateM d parents now).2 d := by
    cases hr : d.recurring with
    | false => simp [DateStateM, hr, eqExceptDates_refl]
    | true =>
      cases hld : d.lastDone with
      | none => simp [DateStateM, hr, hld, eqExceptDates_refl]
      | some ld => simpa [DateStateM, hr, hld] using setRecurringDates_frame d ld
  have hupd : eqExceptDates (patchUpdateLastdoneM d parents now).2 d := by
    by_cases hc : (d.done || !d.recurring) = true
    · simp [patchUpdateLastdoneM, hc, eqExceptDates_refl]
    · simpa [patchUpdateLastdoneM, hc] using hm
  refine ⟨hm, ?_, ?_, ?_⟩
  · rintro (hr | hld)
    · simp [DateStateM, hr]
    · cases hr : d.recurring with
      | false => simp [DateStateM, hr]
      | true => simp [DateStateM, hr, hld]
  · by_cases hdo : d.variant.isDoable = true
    · simp [nodePatch, hdo]
    · simp [nodePatch, hdo]
  · by_cases hdo : d.variant.isDoable = true
    · cases a with
      | markDONE => simp [nodePatch, hdo, eqExceptDates_refl]
      | updateLASTDONE => simpa [nodePatch, hdo] using hupd
      | defaultCheckoff =>
        cases hr : d.recurring with
        | false => simp [nodePatch, hdo, hr, eqExceptDates_refl]
        | true => simpa [nodePatch, hdo, hr] using hupd
    · simp [nodePatch, hdo, eqExceptDates_refl]

/-- Witness for C9 at the rent node (recurring, `last_done` absent, so
`DateState` is a complete no-op) and a plain node. -/
theorem dateState_and_patch_frame_witness :
    (DateStateM { rentNode with lastDone := none } [] qnow).2 =
      { rentNode with lastDone := none } ∧
    (nodePatch c7node [] Actions.markDONE patchNow).2 = c7node :=
  ⟨(dateState_and_patch_frame { rentNode with lastDone := none } [] qnow
      Actions.markDONE).2.1 (Or.inr rfl),
   (dateState_and_patch_frame c7node [] patchNow Actions.markDONE).2.2.1⟩

/-- C4: for a non-recurring doable, `DateState` agrees with the claim's
five-way switch over the inherited date properties, provided the node's
effective ready date exists whenever its effective due date does (the
token parser establishes this: `_ParseDueDate` always sets both); and a
recurring doable without `last_done` is `new` regardless of any dates. -/
theorem dateState_follows_claim (d : NodeData) (parents : List NodeData)
    (now : DateTime) :
    (d.recurring = false →
      ((dueChain (d :: parents)).isSome → (readyChain (d :: parents)).isSome) →
      DateStateChain d parents now =
        DateStateClaimSwitch (visChain (d :: parents)) (dueChain (d :: parents))
          (readyChain (d :: parents)) now) ∧
    (d.recurring = true → d.lastDone = none →
      DateStateChain d parents now = DateStates.new) := by
  constructor
  · intro hrec hready
    unfold DateStateChain dateStateSwitch DateStateClaimSwitch
    simp only [hrec, Bool.false_eq_true, if_false]
    cases hdue : dueChain (d :: parents) with
    | none => rfl
    | some du =>
      have hr := hready (by simp [hdue])
      cases hrd : readyChain (d :: parents) with
      | none => simp [hrd] at hr
      | some r => simp [pyLtOpt]
  · intro hrec hld
    simp [DateStateChain, hrec, hld]

/-- The `testDateStatesDefaultReadyDate` action after parsing
`<2013-08-27`: due 2013-08-27 23:59:59, ready 2013-08-26 23:59:59. -/
def w4node : NodeData :=
  { variant := Variant.nextAction,
    dueDate := some ⟨2013, 8, 27, 23, 59, 59⟩,
    readyDate := some ⟨2013, 8, 26, 23, 59, 59⟩ }

/-- Witness for C4: the due-date action at 2013-08-27T01:00, and the
never-done recurring rent node. -/
theorem dateState_follows_claim_witness :
    DateStateChain w4node [] ⟨2013, 8, 27, 1, 0, 0⟩ =
      DateStateClaimSwitch (visChain [w4node]) (dueChain [w4node])
        (readyChain [w4node]) ⟨2013, 8, 27, 1, 0, 0⟩ ∧
    DateStateChain { rentNode with lastDone := none } [] qnow = DateStates.new :=
  ⟨(dateState_follows_claim w4node [] ⟨2013, 8, 27, 1, 0, 0⟩).1 rfl (by decide),
   (dateState_follows_claim { rentNode with lastDone := none } [] qnow).2 rfl rfl⟩

/-- C2 counterexample: a node lists `home` and its parent cancels
`home`; the claimed union-minus-union formula removes it, but the code's
`contexts` property keeps it (the filter at each node uses only that
node's own `canceled_contexts`). -/
theorem contexts_cancel_at_ancestor_counterexample :
    (contextsChain [c2child, c2parent]).contains "home" = true ∧
    (contextsClaimFormula [c2child, c2parent]).contains "home" = false := by
  decide

/-- C2 (amended): a context is effective at a node iff some node `m` on
its chain (itself included) lists it and it is canceled neither at `m`
nor at any node strictly between the node and `m`; cancellations at
nodes above the one that lists the context have no effect. -/
theorem contextsChain_mem_iff (c : String) (chain : List NodeData) :
    c ∈ contextsChain chain ↔
      ∃ pre m post, chain = pre ++ m :: post ∧ c ∈ m.contexts ∧
        (∀ x ∈ pre, c ∉ x.canceledContexts) ∧ c ∉ m.canceledContexts := by
  induction chain with
  | nil =>
    simp only [contextsChain, List.not_mem_nil, false_iff]
    rintro ⟨pre, m, post, h, -⟩
    cases pre <;> simp at h
  | cons d rest ih =>
    have hsplit : c ∈ contextsChain (d :: rest) ↔
        (c ∈ d.contexts ∨ c ∈ contextsChain rest) ∧ c ∉ d.canceledContexts := by
      simp [contextsChain, List.mem_filter]
      tauto
    rw [hsplit]
    constructor
    · rintro ⟨hmem | hmem, hnc⟩
      · exact ⟨[], d, rest, rfl, hmem, by simp, hnc⟩
      · obtain ⟨pre, m, post, heq, hc, hpre, hm⟩ := ih.mp hmem
        refine ⟨d :: pre, m, post, by simp [heq], hc, ?_, hm⟩
        intro x hx
        rcases List.mem_cons.mp hx with hx | hx
        · exact hx ▸ hnc
        · exact hpre x hx
    · rintro ⟨pre, m, post, heq, hc, hpre, hm⟩
      cases pre with
      | nil =>
        simp only [List.nil_append, List.cons.injEq] at heq
        obtain ⟨hd, hrest⟩ := heq
        subst hd
        exact ⟨Or.inl hc, hm⟩
      | cons p pre2 =>
        simp only [List.cons_append, List.cons.injEq] at heq
        obtain ⟨hd, hrest⟩ := heq
        subst hd
        refine ⟨Or.inr (ih.mpr ⟨pre2, m, post, hrest, hc, ?_, hm⟩), ?_⟩
        · intro x hx
          exact hpre x (List.mem_cons_of_mem _ hx)
        · exact hpre d (List.mem_cons_self _ _)

/-- Strict lexicographic order on the date part of a `DateTime`. -/
def dateLt (a b : DateTime) : Prop :=
  a.year < b.year ∨ (a.year = b.year ∧
    (a.month < b.month ∨ (a.month = b.month ∧ a.day < b.day)))

/-- Equality of the date parts of two `DateTime`s. -/
def dateEqD (a b : DateTime) : Prop :=
  a.year = b.year ∧ a.month = b.month ∧ a.day = b.day

/-- Strict lexicographic order on the time part of a `DateTime`. -/
def timeLtD (a b : DateTime) : Prop :=
  a.hour < b.hour ∨ (a.hour = b.hour ∧
    (a.minute < b.minute ∨ (a.minute = b.minute ∧ a.second < b.second)))

/-- Python's datetime `<` splits into date order or equal dates with
time order. -/
theorem ltb_iff (a b : DateTime) :
    DateTime.ltb a b = true ↔ dateLt a b ∨ (dateEqD a b ∧ timeLtD a b) := by
  simp only [DateTime.ltb, dateLt, dateEqD, timeLtD, Bool.or_eq_true,
    Bool.and_eq_true, decide_eq_true_eq]
  tauto

/-- The complement of `ltb_iff`. -/
theorem ltb_eq_false_iff (a b : DateTime) :
    DateTime.ltb a b = false ↔ ¬(dateLt a b ∨ (dateEqD a b ∧ timeLtD a b)) := by
  rw [Bool.eq_false_iff]
  exact not_congr (ltb_iff a b)

/-- `<` on datetimes is irreflexive. -/
theorem ltb_irrefl (a : DateTime) : DateTime.ltb a a = false := by
  simp [DateTime.ltb]

/-- `<=` on datetimes is reflexive. -/
theorem leb_refl (a : DateTime) : DateTime.leb a a = true := by
  simp [DateTime.leb, ltb_irrefl]

/-- A strict date order gives `<=` regardless of the times. -/
theorem dateLt_leb (a b : DateTime) (h : dateLt a b) : DateTime.leb a b = true := by
  have hf : DateTime.ltb b a = false := by
    rw [ltb_eq_false_iff]
    unfold dateLt dateEqD timeLtD at *
    omega
  simp [DateTime.leb, hf]

/-- Two datetimes with equal dates and equal times are equal. -/
theorem dt_ext (a b : DateTime) (hd : dateEqD a b) (h4 : a.hour = b.hour)
    (h5 : a.minute = b.minute) (h6 : a.second = b.second) : a = b := by
  cases a; cases b; simp_all [dateEqD]

/-- `prevDay` keeps the time of day. -/
theorem prevDay_time (t : DateTime) :
    (t.prevDay).hour = t.hour ∧ (t.prevDay).minute = t.minute ∧
      (t.prevDay).second = t.second := by
  unfold DateTime.prevDay
  split
  · exact ⟨rfl, rfl, rfl⟩
  · split
    · exact ⟨rfl, rfl, rfl⟩
    · exact ⟨rfl, rfl, rfl⟩

/-- `prevDay` strictly decreases the date. -/
theorem prevDay_dateLt (t : DateTime) (h1 : 1 ≤ t.day) (h2 : 1 ≤ t.month) :
    dateLt t.prevDay t := by
  obtain ⟨ty, tm, td, th, ti, ts⟩ := t
  unfold DateTime.prevDay dateLt
  simp only at h1 h2 ⊢
  by_cases hd : 1 < td
  · simp only [hd, if_true, true_and, and_true]
    omega
  · simp only [hd, if_false]
    by_cases hm : 1 < tm
    · simp only [hm, if_true, true_and, and_true]
      omega
    · simp only [hm, if_false, true_and, and_true]
      omega

/-- A calendar-valid date, as Python's `datetime` constructor enforces
(every Python datetime value satisfies this). -/
def ValidDate (t : DateTime) : Prop :=
  1 ≤ t.month ∧ t.month ≤ 12 ∧ 1 ≤ t.day ∧ t.day ≤ daysInMonth t.year t.month

instance (t : DateTime) : Decidable (ValidDate t) := by
  unfold ValidDate; infer_instance

/-- `prevDay` is the immediate predecessor among valid dates: any valid
date strictly before `t` is at or before `t.prevDay`. -/
theorem dateLt_le_prevDay (u t : DateTime) (hu : ValidDate u) (ht : ValidDate t)
    (h : dateLt u t) : dateLt u t.prevDay ∨ dateEqD u t.prevDay := by
  obtain ⟨uy, um, ud, uh, ui, us⟩ := u
  obtain ⟨ty, tm, td, th, ti, ts⟩ := t
  unfold ValidDate at hu ht
  unfold DateTime.prevDay dateLt dateEqD at *
  simp only at hu ht h ⊢
  by_cases hd : 1 < td
  · simp only [hd, if_true, true_and, and_true]
    rcases h with h | ⟨hy, h⟩
    · exact Or.inl (Or.inl h)
    · rcases h with h | ⟨hmm, hdd⟩
      · exact Or.inl (Or.inr ⟨hy, Or.inl h⟩)
      · by_cases hde : ud = td - 1
        · exact Or.inr ⟨hy, hmm, hde⟩
        · exact Or.inl (Or.inr ⟨hy, Or.inr ⟨hmm, by omega⟩⟩)
  · simp only [hd, if_false]
    by_cases hm : 1 < tm
    · simp only [hm, if_true, true_and, and_true]
      rcases h with h | ⟨hy, h⟩
      · left; left; omega
      · rcases h with h | ⟨hmm, hdd⟩
        · by_cases heq : um = tm - 1
          · have hdim : daysInMonth uy um = daysInMonth ty (tm - 1) := by
              rw [hy, heq]
            omega
          · left; right; refine ⟨hy, ?_⟩; omega
        · omega
    · simp only [hm, if_false, true_and, and_true]
      rcases h with h | ⟨hy, h⟩
      · by_cases hyy : uy < ty - 1
        · exact Or.inl (Or.inl hyy)
        · have hy1 : uy = ty - 1 := by omega
          by_cases hmm12 : um < 12
          · exact Or.inl (Or.inr ⟨hy1, Or.inl hmm12⟩)
          · have hm12 : um = 12 := by omega
            have h31 : daysInMonth uy um = 31 := by rw [hm12]; rfl
            by_cases hdd31 : ud < 31
            · exact Or.inl (Or.inr ⟨hy1, Or.inr ⟨hm12, hdd31⟩⟩)
            · exact Or.inr ⟨hy1, hm12, by omega⟩
      · rcases h with h | ⟨hmm, hdd⟩
        · omega
        · omega

/-- The time of day of `u` equals the parsed `HH:MM` spec (with no
seconds), as `datetime.combine` with a `strptime` time produces. -/
def hasTOD (u : DateTime) (s : TimeHM) : Prop :=
  u.hour = s.hour ∧ u.minute = s.minute ∧ u.second = 0

instance (u : DateTime) (s : TimeHM) : Decidable (hasTOD u s) := by
  unfold hasTOD; infer_instance

/-- C6 (amended): for a parsable `HH:MM` spec, `PreviousTime` returns
the latest instant strictly before `t` whose time of day equals the
spec; for a missing or unparsable spec it behaves exactly as for the
spec `00:00`, regardless of the `due` flag. -/
theorem previousTime_correct (t : DateTime) (s : TimeHM) (due : Bool)
    (ht : ValidDate t) :
    hasTOD (PreviousTime t (some s) due) s ∧
    DateTime.ltb (PreviousTime t (some s) due) t = true ∧
    (∀ u : DateTime, ValidDate u → hasTOD u s → DateTime.ltb u t = true →
      DateTime.leb u (PreviousTime t (some s) due) = true) ∧
    PreviousTime t none due = PreviousTime t (some ⟨0, 0⟩) due := by
  have hndDate : dateEqD (t.combine s) t := ⟨rfl, rfl, rfl⟩
  have hndValid : ValidDate (t.combine s) := ht
  cases hc : DateTime.leb t (t.combine s) with
  | true =>
    have hres : PreviousTime t (some s) due = (t.combine s).prevDay := by
      simp [PreviousTime, hc]
    have hpt := prevDay_time (t.combine s)
    have hplt : dateLt (t.combine s).prevDay t :=
      prevDay_dateLt (t.combine s) hndValid.2.2.1 hndValid.1
    have hnltb : DateTime.ltb (t.combine s) t = false := by
      simpa [DateTime.leb] using hc
    have hnlt : ¬(dateLt (t.combine s) t ∨
        (dateEqD (t.combine s) t ∧ timeLtD (t.combine s) t)) :=
      (ltb_eq_false_iff _ _).mp hnltb
    have hntime : ¬ timeLtD (t.combine s) t := fun h => hnlt (Or.inr ⟨hndDate, h⟩)
    refine ⟨?_, ?_, ?_, rfl⟩
    · rw [hres]
      exact ⟨hpt.1, hpt.2.1, hpt.2.2⟩
    · rw [hres]
      exact (ltb_iff _ _).mpr (Or.inl hplt)
    · intro u hu hut hltu
      rw [hres]
      rcases (ltb_iff u t).mp hltu with hlt | ⟨hdeq, htlt⟩
      · rcases dateLt_le_prevDay u (t.combine s) hu hndValid hlt with hlt2 | heq2
        · exact dateLt_leb _ _ hlt2
        · have hueq : u = (t.combine s).prevDay := by
            refine dt_ext u _ heq2 ?_ ?_ ?_
            · rw [hpt.1]; exact hut.1
            · rw [hpt.2.1]; exact hut.2.1
            · rw [hpt.2.2]; exact hut.2.2
          rw [hueq]; exact leb_refl _
      · exfalso
        apply hntime
        obtain ⟨e1, e2, e3⟩ := hut
        unfold timeLtD at htlt ⊢
        rw [e1, e2, e3] at htlt
        exact htlt
  | false =>
    have hres : PreviousTime t (some s) due = t.combine s := by
      simp [PreviousTime, hc]
    have hltb : DateTime.ltb (t.combine s) t = true := by
      simpa [DateTime.leb] using hc
    refine ⟨?_, ?_, ?_, rfl⟩
    · rw [hres]; exact ⟨rfl, rfl, rfl⟩
    · rw [hres]; exact hltb
    · intro u hu hut hltu
      rw [hres]
      rcases (ltb_iff u t).mp hltu with hlt | ⟨hdeq, htlt⟩
      · exact dateLt_leb _ _ hlt
      · have hueq : u = t.combine s := by
          refine dt_ext u _ ?_ hut.1 hut.2.1 hut.2.2
          exact ⟨hdeq.1, hdeq.2.1, hdeq.2.2⟩
        rw [hueq]; exact leb_refl _

/-- C6 counterexample: with a missing time spec and `due = True`,
`PreviousTime` uses 00:00, not the claimed 23:59 — at
2013-09-01T16:14 it returns 2013-09-01T00:00 (whose time of day is
00:00), while the claim requires the latest instant strictly before
with time of day 23:59, i.e. 2013-08-31T23:59. -/
theorem previousTime_fallback_counterexample :
    PreviousTime ⟨2013, 9, 1, 16, 14, 0⟩ none true = ⟨2013, 9, 1, 0, 0, 0⟩ ∧
    PreviousTime ⟨2013, 9, 1, 16, 14, 0⟩ none true ≠ ⟨2013, 8, 31, 23, 59, 0⟩ ∧
    ¬ hasTOD (PreviousTime ⟨2013, 9, 1, 16, 14, 0⟩ none true) ⟨23, 59⟩ := by
  decide

/-- Witness for C6 at `t` = 2013-09-01T16:14 with spec 17:00: the result
2013-08-31T17:00 is strictly before `t` and is at or after the candidate
2013-08-31T17:00 itself. -/
theorem previousTime_correct_witness :
    DateTime.ltb (PreviousTime ⟨2013, 9, 1, 16, 14, 0⟩ (some ⟨17, 0⟩) true)
      ⟨2013, 9, 1, 16, 14, 0⟩ = true ∧
    DateTime.leb ⟨2013, 8, 31, 17, 0, 0⟩
      (PreviousTime ⟨2013, 9, 1, 16, 14, 0⟩ (some ⟨17, 0⟩) true) = true :=
  ⟨(previousTime_correct ⟨2013, 9, 1, 16, 14, 0⟩ ⟨17, 0⟩ true (by decide)).2.1,
   (previousTime_correct ⟨2013, 9, 1, 16, 14, 0⟩ ⟨17, 0⟩ true (by decide)).2.2.1
     ⟨2013, 8, 31, 17, 0, 0⟩ (by decide) (by decide) (by decide)⟩
